import Mathlib

/-!
# Verification of the virtual-folder organization engine

Shallow embedding of `src/services/folderManager.ts` (the Folder Manager /
Folder Store core) and of the folder-aware tree composition in
`src/providers/agentsProvider.ts`, together with proofs of the spec's
testable properties.

Modelling conventions:
* Folder ids are random UUID-v4 strings in the source (`generateId`).  The
  embedding models the generator as an injective fresh-id supply: ids are
  naturals handed out by a counter `nextId` carried in the state.  The
  reachability relation lets a caller pass any already-mintable id as a
  `parentId`, but (matching the unguessability of a random 128-bit token)
  never an id that the generator has not produced yet.
* The JavaScript assignment object `Record<string, string>` is modelled as an
  association list: `delete` removes the key, assignment updates the entry in
  place when the key is present and appends otherwise, mirroring JS object
  key semantics.
* Every mutating method of the manager performs `await this.saveState()` once
  and fires `this._onDidChange.fire(resourceType)` once (or, for
  `renameFolder` on a missing id, neither); each mutator therefore returns,
  besides the new state, the number of persists performed and the list of
  change events fired, in order.
-/

namespace ClaudeCodeBrowser

/-- The four resource kinds of `src/types/index.ts` (`ResourceType`). -/
inductive ResourceType : Type where
  | skill : ResourceType
  | agent : ResourceType
  | mcp : ResourceType
  | plugin : ResourceType
deriving DecidableEq, Repr

/-- Folder ids: opaque UUID strings in the source, modelled as the naturals
produced by an injective fresh-id supply. -/
abbrev FolderId := Nat

/-- Item keys are the stable file paths of resource items. -/
abbrev ItemKey := String

/-- `VirtualFolder` of `src/types/index.ts`: `{id, name, parentId?, resourceType}`. -/
structure VirtualFolder where
  id : FolderId
  name : String
  parentId : Option FolderId
  resourceType : ResourceType
deriving DecidableEq, Repr

/-- The persisted `FolderState`: per-kind folder lists and per-kind
item-to-folder assignment maps.  `nextId` is the state of the fresh-id
supply modelling `generateId`. -/
structure FolderState where
  folders : ResourceType → List VirtualFolder
  assignments : ResourceType → List (ItemKey × FolderId)
  nextId : FolderId

/-- The empty state produced by `loadState` when nothing is persisted. -/
def initialState : FolderState where
  folders := fun _ => []
  assignments := fun _ => []
  nextId := 0

/-- Result of a mutating Folder Manager operation: the new state, the number
of `saveState` persists performed, and the change events fired in order. -/
structure MutResult where
  state : FolderState
  persistCount : Nat
  fired : List ResourceType

/-- Update the folder list of one resource kind. -/
def updFolders (st : FolderState) (rt : ResourceType)
    (f : List VirtualFolder → List VirtualFolder) : FolderState :=
  { st with folders := fun rt2 => if rt2 = rt then f (st.folders rt2) else st.folders rt2 }

/-- Update the assignment map of one resource kind. -/
def updAssignments (st : FolderState) (rt : ResourceType)
    (f : List (ItemKey × FolderId) → List (ItemKey × FolderId)) : FolderState :=
  { st with assignments := fun rt2 => if rt2 = rt then f (st.assignments rt2) else st.assignments rt2 }

/-- `getFolders(resourceType)`: all folders for a resource type. -/
def getFolders (st : FolderState) (rt : ResourceType) : List VirtualFolder :=
  st.folders rt

/-- `getChildFolders(resourceType, parentId?)`: the folders whose `parentId`
equals the given value (`none` = root level). -/
def getChildFolders (st : FolderState) (rt : ResourceType)
    (parentId : Option FolderId) : List VirtualFolder :=
  (st.folders rt).filter (fun f => f.parentId == parentId)

/-- Lookup in the assignment association list (JS object indexing). -/
def lookupAssign : List (ItemKey × FolderId) → ItemKey → Option FolderId
  | [], _ => none
  | (k, v) :: rest, key => if k = key then some v else lookupAssign rest key

/-- JS object update `assignments[key] = v`: replace in place when the key is
present, append otherwise. -/
def setAssign (l : List (ItemKey × FolderId)) (key : ItemKey) (v : FolderId) :
    List (ItemKey × FolderId) :=
  if l.any (fun p => p.1 == key) then
    l.map (fun p => if p.1 == key then (key, v) else p)
  else
    l ++ [(key, v)]

/-- `getFolderForItem(resourceType, filePath)`: the assignment for an item,
`none` when at root level. -/
def getFolderForItem (st : FolderState) (rt : ResourceType) (key : ItemKey) :
    Option FolderId :=
  lookupAssign (st.assignments rt) key

/-- `getItemsInFolder(resourceType, folderId)`: the keys whose assignment
entry points at `folderId` (in `Object.entries` order). -/
def getItemsInFolder (st : FolderState) (rt : ResourceType) (fid : FolderId) :
    List ItemKey :=
  ((st.assignments rt).filter (fun p => p.2 == fid)).map (fun p => p.1)

/-- `countItemsRecursive`, with explicit fuel: the TypeScript recursion has no
structural decrease (in a state with a parent-pointer cycle it would not
terminate), so the embedding bounds the recursion depth by a fuel argument.
One unit of fuel corresponds to one level of the recursion. -/
def countItemsRecursiveFuel (st : FolderState) (rt : ResourceType) :
    Nat → FolderId → Nat
  | 0, _ => 0
  | fuel + 1, fid =>
      (getItemsInFolder st rt fid).length +
        ((getChildFolders st rt (some fid)).map
          (fun c => countItemsRecursiveFuel st rt fuel c.id)).sum

/-- `countItemsRecursive(resourceType, folderId)`: direct items plus the
recursive counts of the child folders.  The fuel `(folders).length + 1`
strictly exceeds the recursion depth in every forest state (proved below), so
on such states this definition computes exactly what the source recursion
computes. -/
def countItemsRecursive (st : FolderState) (rt : ResourceType) (fid : FolderId) : Nat :=
  countItemsRecursiveFuel st rt ((st.folders rt).length + 1) fid

/-- `createFolder(resourceType, name, parentId?)`: mint a fresh id, append the
folder, persist once, notify once.  The created folder (which the source
returns) is `⟨st.nextId, name, parentId, rt⟩`. -/
def createFolder (st : FolderState) (rt : ResourceType) (name : String)
    (parentId : Option FolderId) : MutResult :=
  let folder : VirtualFolder := ⟨st.nextId, name, parentId, rt⟩
  { state := { updFolders st rt (fun l => l ++ [folder]) with nextId := st.nextId + 1 }
    persistCount := 1
    fired := [rt] }

/-- The in-place mutation of `renameFolder`: `find` returns the first folder
with the given id and its `name` field is overwritten. -/
def renameInList (fid : FolderId) (newName : String) :
    List VirtualFolder → List VirtualFolder
  | [] => []
  | f :: rest =>
      if f.id = fid then { f with name := newName } :: rest
      else f :: renameInList fid newName rest

/-- `renameFolder(resourceType, folderId, newName)`: when the id is found the
first matching folder's name is mutated, the state persisted and a change
event fired; when it is not found the method returns without persisting and
without firing. -/
def renameFolder (st : FolderState) (rt : ResourceType) (fid : FolderId)
    (newName : String) : MutResult :=
  if (st.folders rt).any (fun f => f.id == fid) then
    { state := updFolders st rt (renameInList fid newName)
      persistCount := 1
      fired := [rt] }
  else
    { state := st, persistCount := 0, fired := [] }

/-- One iteration of the child loop in `deleteFolder`: clear every assignment
entry pointing at the child, then remove the child's folder definition. -/
def deleteChildStep (rt : ResourceType) (s : FolderState) (child : VirtualFolder) :
    FolderState :=
  updFolders (updAssignments s rt (fun a => a.filter (fun p => p.2 != child.id)))
    rt (fun l => l.filter (fun f => f.id != child.id))

/-- `deleteFolder(resourceType, folderId)`: for each direct child of the
target (computed on the state at entry) clear its assignments and remove it;
then clear the assignments pointing at the target and remove the target;
persist once and notify once. -/
def deleteFolder (st : FolderState) (rt : ResourceType) (fid : FolderId) : MutResult :=
  let children := getChildFolders st rt (some fid)
  let st1 := children.foldl (deleteChildStep rt) st
  let st2 := updAssignments st1 rt (fun a => a.filter (fun p => p.2 != fid))
  let st3 := updFolders st2 rt (fun l => l.filter (fun f => f.id != fid))
  { state := st3, persistCount := 1, fired := [rt] }

/-- The per-key mutation shared by `assignItemToFolder` and
`assignItemsToFolder`: clear the entry when `folderId` is `undefined`, set it
otherwise. -/
def assignStep (rt : ResourceType) (fid? : Option FolderId) (s : FolderState)
    (key : ItemKey) : FolderState :=
  match fid? with
  | none => updAssignments s rt (fun a => a.filter (fun p => p.1 != key))
  | some fid => updAssignments s rt (fun a => setAssign a key fid)

/-- `assignItemToFolder(resourceType, filePath, folderId)`. -/
def assignItemToFolder (st : FolderState) (rt : ResourceType) (key : ItemKey)
    (fid? : Option FolderId) : MutResult :=
  { state := assignStep rt fid? st key, persistCount := 1, fired := [rt] }

/-- `assignItemsToFolder(resourceType, filePaths, folderId)`: the per-key loop
followed by a single persist and a single notification. -/
def assignItemsToFolder (st : FolderState) (rt : ResourceType)
    (keys : List ItemKey) (fid? : Option FolderId) : MutResult :=
  { state := keys.foldl (assignStep rt fid?) st, persistCount := 1, fired := [rt] }

/-- States reachable from the empty state by Folder Manager operations.  The
side condition on `create` models the id supply: a caller can pass as
`parentId` any id that could already have been minted, but cannot guess an id
the random generator has not produced yet. -/
inductive Reachable : FolderState → Prop where
  | init : Reachable initialState
  | create {st : FolderState} (rt : ResourceType) (name : String)
      (parentId : Option FolderId) (h : Reachable st)
      (hp : ∀ p, parentId = some p → p < st.nextId) :
      Reachable (createFolder st rt name parentId).state
  | rename {st : FolderState} (rt : ResourceType) (fid : FolderId) (newName : String)
      (h : Reachable st) : Reachable (renameFolder st rt fid newName).state
  | delete {st : FolderState} (rt : ResourceType) (fid : FolderId)
      (h : Reachable st) : Reachable (deleteFolder st rt fid).state
  | assign {st : FolderState} (rt : ResourceType) (key : ItemKey)
      (fid? : Option FolderId) (h : Reachable st) :
      Reachable (assignItemToFolder st rt key fid?).state
  | assignBatch {st : FolderState} (rt : ResourceType) (keys : List ItemKey)
      (fid? : Option FolderId) (h : Reachable st) :
      Reachable (assignItemsToFolder st rt keys fid?).state

/-! ## Projection lemmas for the state updaters -/

theorem updFolders_folders_self (st : FolderState) (rt : ResourceType)
    (f : List VirtualFolder → List VirtualFolder) :
    (updFolders st rt f).folders rt = f (st.folders rt) := by
  simp [updFolders]

theorem updFolders_folders_ne (st : FolderState) {rt rt2 : ResourceType}
    (f : List VirtualFolder → List VirtualFolder) (h : rt2 ≠ rt) :
    (updFolders st rt f).folders rt2 = st.folders rt2 := by
  simp [updFolders, h]

theorem updFolders_assignments (st : FolderState) (rt : ResourceType)
    (f : List VirtualFolder → List VirtualFolder) :
    (updFolders st rt f).assignments = st.assignments := rfl

theorem updFolders_nextId (st : FolderState) (rt : ResourceType)
    (f : List VirtualFolder → List VirtualFolder) :
    (updFolders st rt f).nextId = st.nextId := rfl

theorem updAssignments_assignments_self (st : FolderState) (rt : ResourceType)
    (f : List (ItemKey × FolderId) → List (ItemKey × FolderId)) :
    (updAssignments st rt f).assignments rt = f (st.assignments rt) := by
  simp [updAssignments]

theorem updAssignments_assignments_ne (st : FolderState) {rt rt2 : ResourceType}
    (f : List (ItemKey × FolderId) → List (ItemKey × FolderId)) (h : rt2 ≠ rt) :
    (updAssignments st rt f).assignments rt2 = st.assignments rt2 := by
  simp [updAssignments, h]

theorem updAssignments_folders (st : FolderState) (rt : ResourceType)
    (f : List (ItemKey × FolderId) → List (ItemKey × FolderId)) :
    (updAssignments st rt f).folders = st.folders := rfl

theorem updAssignments_nextId (st : FolderState) (rt : ResourceType)
    (f : List (ItemKey × FolderId) → List (ItemKey × FolderId)) :
    (updAssignments st rt f).nextId = st.nextId := rfl

/-! ## Shape lemmas for the individual operations -/

theorem deleteChildStep_folders (rt : ResourceType) (s : FolderState)
    (c : VirtualFolder) (rt2 : ResourceType) :
    (deleteChildStep rt s c).folders rt2 =
      if rt2 = rt then (s.folders rt2).filter (fun f => f.id != c.id)
      else s.folders rt2 := by
  by_cases h : rt2 = rt
  · subst h
    simp [deleteChildStep, updFolders_folders_self, updAssignments_folders]
  · simp [deleteChildStep, updFolders_folders_ne _ _ h, updAssignments_folders, h]

theorem deleteChildStep_assignments (rt : ResourceType) (s : FolderState)
    (c : VirtualFolder) (rt2 : ResourceType) :
    (deleteChildStep rt s c).assignments rt2 =
      if rt2 = rt then (s.assignments rt2).filter (fun p => p.2 != c.id)
      else s.assignments rt2 := by
  by_cases h : rt2 = rt
  · subst h
    simp [deleteChildStep, updFolders_assignments, updAssignments_assignments_self]
  · simp [deleteChildStep, updFolders_assignments,
      updAssignments_assignments_ne _ _ h, h]

theorem deleteChildStep_nextId (rt : ResourceType) (s : FolderState)
    (c : VirtualFolder) : (deleteChildStep rt s c).nextId = s.nextId := rfl

theorem foldl_deleteChildStep_folders_sublist (rt : ResourceType)
    (cs : List VirtualFolder) (rt2 : ResourceType) :
    ∀ s : FolderState, ((cs.foldl (deleteChildStep rt) s).folders rt2).Sublist (s.folders rt2) := by
  induction cs with
  | nil => intro s; exact List.Sublist.refl _
  | cons c cs ih =>
      intro s
      refine (ih (deleteChildStep rt s c)).trans ?_
      rw [deleteChildStep_folders]
      by_cases h : rt2 = rt
      · rw [if_pos h]
        exact List.filter_sublist _
      · rw [if_neg h]

theorem foldl_deleteChildStep_assignments_sublist (rt : ResourceType)
    (cs : List VirtualFolder) (rt2 : ResourceType) :
    ∀ s : FolderState,
      ((cs.foldl (deleteChildStep rt) s).assignments rt2).Sublist (s.assignments rt2) := by
  induction cs with
  | nil => intro s; exact List.Sublist.refl _
  | cons c cs ih =>
      intro s
      refine (ih (deleteChildStep rt s c)).trans ?_
      rw [deleteChildStep_assignments]
      by_cases h : rt2 = rt
      · rw [if_pos h]
        exact List.filter_sublist _
      · rw [if_neg h]

theorem foldl_deleteChildStep_folders_ne (rt : ResourceType)
    (cs : List VirtualFolder) {rt2 : ResourceType} (h : rt2 ≠ rt) :
    ∀ s : FolderState, (cs.foldl (deleteChildStep rt) s).folders rt2 = s.folders rt2 := by
  induction cs with
  | nil => intro s; rfl
  | cons c cs ih =>
      intro s
      rw [List.foldl_cons, ih, deleteChildStep_folders, if_neg h]

theorem foldl_deleteChildStep_assignments_ne (rt : ResourceType)
    (cs : List VirtualFolder) {rt2 : ResourceType} (h : rt2 ≠ rt) :
    ∀ s : FolderState,
      (cs.foldl (deleteChildStep rt) s).assignments rt2 = s.assignments rt2 := by
  induction cs with
  | nil => intro s; rfl
  | cons c cs ih =>
      intro s
      rw [List.foldl_cons, ih, deleteChildStep_assignments, if_neg h]

theorem foldl_deleteChildStep_nextId (rt : ResourceType) (cs : List VirtualFolder) :
    ∀ s : FolderState, (cs.foldl (deleteChildStep rt) s).nextId = s.nextId := by
  induction cs with
  | nil => intro s; rfl
  | cons c cs ih => intro s; rw [List.foldl_cons, ih]; rfl

theorem deleteFolder_folders_sublist (st : FolderState) (rt : ResourceType)
    (fid : FolderId) (rt2 : ResourceType) :
    ((deleteFolder st rt fid).state.folders rt2).Sublist (st.folders rt2) := by
  show ((updFolders _ rt _).folders rt2).Sublist (st.folders rt2)
  by_cases h : rt2 = rt
  · subst h
    rw [updFolders_folders_self]
    refine (List.filter_sublist _).trans ?_
    show (((updAssignments _ rt2 _).folders rt2)).Sublist (st.folders rt2)
    rw [updAssignments_folders]
    exact foldl_deleteChildStep_folders_sublist rt2 _ rt2 st
  · rw [updFolders_folders_ne _ _ h]
    show (((updAssignments _ rt _).folders rt2)).Sublist (st.folders rt2)
    rw [updAssignments_folders]
    exact foldl_deleteChildStep_folders_sublist rt _ rt2 st

theorem deleteFolder_assignments_sublist (st : FolderState) (rt : ResourceType)
    (fid : FolderId) (rt2 : ResourceType) :
    ((deleteFolder st rt fid).state.assignments rt2).Sublist (st.assignments rt2) := by
  show ((updFolders _ rt _).assignments rt2).Sublist (st.assignments rt2)
  rw [updFolders_assignments]
  by_cases h : rt2 = rt
  · subst h
    rw [updAssignments_assignments_self]
    refine (List.filter_sublist _).trans ?_
    exact foldl_deleteChildStep_assignments_sublist rt2 _ rt2 st
  · rw [updAssignments_assignments_ne _ _ h]
    exact foldl_deleteChildStep_assignments_sublist rt _ rt2 st

theorem deleteFolder_nextId (st : FolderState) (rt : ResourceType) (fid : FolderId) :
    (deleteFolder st rt fid).state.nextId = st.nextId := by
  show (updFolders _ rt _).nextId = st.nextId
  rw [updFolders_nextId, updAssignments_nextId, foldl_deleteChildStep_nextId]

theorem renameInList_shape (fid : FolderId) (newName : String) :
    ∀ l : List VirtualFolder, ∀ f ∈ renameInList fid newName l,
      ∃ g ∈ l, f.id = g.id ∧ f.parentId = g.parentId ∧ f.resourceType = g.resourceType := by
  intro l
  induction l with
  | nil => intro f hf; simp [renameInList] at hf
  | cons g rest ih =>
      intro f hf
      rw [renameInList] at hf
      by_cases h : g.id = fid
      · rw [if_pos h] at hf
        rcases List.mem_cons.mp hf with hf | hf
        · exact ⟨g, List.mem_cons_self _ _, by simp [hf]⟩
        · exact ⟨f, List.mem_cons_of_mem _ hf, rfl, rfl, rfl⟩
      · rw [if_neg h] at hf
        rcases List.mem_cons.mp hf with hf | hf
        · exact ⟨g, List.mem_cons_self _ _, by simp [hf]⟩
        · obtain ⟨g2, hg2, hid, hp, hrt⟩ := ih f hf
          exact ⟨g2, List.mem_cons_of_mem _ hg2, hid, hp, hrt⟩

theorem renameInList_map_id (fid : FolderId) (newName : String) :
    ∀ l : List VirtualFolder,
      (renameInList fid newName l).map (fun f => f.id) = l.map (fun f => f.id) := by
  intro l
  induction l with
  | nil => rfl
  | cons g rest ih =>
      rw [renameInList]
      by_cases h : g.id = fid
      · simp [h]
      · simp only [if_neg h, List.map_cons, ih]

theorem assignStep_folders (rt : ResourceType) (fid? : Option FolderId)
    (s : FolderState) (key : ItemKey) : (assignStep rt fid? s key).folders = s.folders := by
  cases fid? <;> rfl

theorem assignStep_nextId (rt : ResourceType) (fid? : Option FolderId)
    (s : FolderState) (key : ItemKey) : (assignStep rt fid? s key).nextId = s.nextId := by
  cases fid? <;> rfl

theorem foldl_assignStep_folders (rt : ResourceType) (fid? : Option FolderId)
    (keys : List ItemKey) :
    ∀ s : FolderState, (keys.foldl (assignStep rt fid?) s).folders = s.folders := by
  induction keys with
  | nil => intro s; rfl
  | cons k ks ih => intro s; rw [List.foldl_cons, ih, assignStep_folders]

theorem foldl_assignStep_nextId (rt : ResourceType) (fid? : Option FolderId)
    (keys : List ItemKey) :
    ∀ s : FolderState, (keys.foldl (assignStep rt fid?) s).nextId = s.nextId := by
  induction keys with
  | nil => intro s; rfl
  | cons k ks ih => intro s; rw [List.foldl_cons, ih, assignStep_nextId]

/-! ## The state invariant -/

/-- Invariant of every reachable state: every folder id was minted (is below
`nextId`), every parent pointer refers to an id strictly smaller than the
folder's own id (the parent was created earlier), and the folder ids of each
kind are pairwise distinct. -/
def FolderInv (st : FolderState) : Prop :=
  ∀ rt : ResourceType,
    (∀ f ∈ st.folders rt, f.id < st.nextId ∧ ∀ p, f.parentId = some p → p < f.id) ∧
      ((st.folders rt).map (fun f => f.id)).Nodup

theorem folderInv_initial : FolderInv initialState := by
  intro rt
  constructor
  · intro f hf
    simp [initialState] at hf
  · simp [initialState]

theorem folderInv_create {st : FolderState} (h : FolderInv st) (rt : ResourceType)
    (name : String) (parentId : Option FolderId)
    (hp : ∀ p, parentId = some p → p < st.nextId) :
    FolderInv (createFolder st rt name parentId).state := by
  intro rt2
  have hfold : (createFolder st rt name parentId).state.folders rt2 =
      if rt2 = rt then st.folders rt2 ++ [⟨st.nextId, name, parentId, rt⟩]
      else st.folders rt2 := by
    simp only [createFolder, updFolders]
  have hnext : (createFolder st rt name parentId).state.nextId = st.nextId + 1 := rfl
  rw [hfold, hnext]
  by_cases hr : rt2 = rt
  · rw [if_pos hr]
    constructor
    · intro f hf
      rcases List.mem_append.mp hf with hf | hf
      · obtain ⟨h1, h2⟩ := (h rt2).1 f hf
        exact ⟨Nat.lt_succ_of_lt h1, h2⟩
      · simp only [List.mem_singleton] at hf
        subst hf
        refine ⟨Nat.lt_succ_self _, ?_⟩
        intro p hpp
        exact hp p hpp
    · rw [List.map_append]
      simp only [List.map_cons, List.map_nil]
      rw [List.nodup_append]
      refine ⟨(h rt2).2, List.nodup_singleton _, ?_⟩
      intro a ha hb
      simp only [List.mem_singleton] at hb
      subst hb
      rcases List.mem_map.mp ha with ⟨f, hf, hfa⟩
      have h5 := ((h rt2).1 f hf).1
      have h6 : f.id = st.nextId := hfa
      exact absurd h6 (Nat.ne_of_lt h5)
  · rw [if_neg hr]
    constructor
    · intro f hf
      obtain ⟨h1, h2⟩ := (h rt2).1 f hf
      exact ⟨Nat.lt_succ_of_lt h1, h2⟩
    · exact (h rt2).2

theorem folderInv_rename {st : FolderState} (h : FolderInv st) (rt : ResourceType)
    (fid : FolderId) (newName : String) :
    FolderInv (renameFolder st rt fid newName).state := by
  rw [renameFolder]
  by_cases hc : (st.folders rt).any (fun f => f.id == fid)
  · rw [if_pos hc]
    intro rt2
    by_cases hr : rt2 = rt
    · subst hr
      constructor
      · intro f hf
        rw [updFolders_folders_self] at hf
        obtain ⟨g, hg, hid, hp2, _⟩ := renameInList_shape fid newName _ f hf
        obtain ⟨h1, h2⟩ := (h rt2).1 g hg
        rw [updFolders_nextId]
        refine ⟨by rw [hid]; exact h1, ?_⟩
        intro p hpp
        rw [hid]
        exact h2 p (by rw [← hp2]; exact hpp)
      · show ((updFolders st rt2 _).folders rt2).map _ |>.Nodup
        rw [updFolders_folders_self, renameInList_map_id]
        exact (h rt2).2
    · constructor
      · intro f hf
        rw [updFolders_folders_ne _ _ hr] at hf
        rw [updFolders_nextId]
        exact (h rt2).1 f hf
      · show ((updFolders st rt _).folders rt2).map _ |>.Nodup
        rw [updFolders_folders_ne _ _ hr]
        exact (h rt2).2
  · rw [if_neg hc]
    exact h

theorem folderInv_delete {st : FolderState} (h : FolderInv st) (rt : ResourceType)
    (fid : FolderId) : FolderInv (deleteFolder st rt fid).state := by
  intro rt2
  have hsub := deleteFolder_folders_sublist st rt fid rt2
  constructor
  · intro f hf
    rw [deleteFolder_nextId]
    exact (h rt2).1 f (hsub.subset hf)
  · exact List.Nodup.sublist (hsub.map (fun f => f.id)) (h rt2).2

theorem folderInv_assign {st : FolderState} (h : FolderInv st) (rt : ResourceType)
    (key : ItemKey) (fid? : Option FolderId) :
    FolderInv (assignItemToFolder st rt key fid?).state := by
  have hf : (assignItemToFolder st rt key fid?).state.folders = st.folders :=
    assignStep_folders rt fid? st key
  have hn : (assignItemToFolder st rt key fid?).state.nextId = st.nextId :=
    assignStep_nextId rt fid? st key
  intro rt2
  rw [hf, hn]
  exact h rt2

theorem folderInv_assignBatch {st : FolderState} (h : FolderInv st)
    (rt : ResourceType) (keys : List ItemKey) (fid? : Option FolderId) :
    FolderInv (assignItemsToFolder st rt keys fid?).state := by
  have hf : (assignItemsToFolder st rt keys fid?).state.folders = st.folders :=
    foldl_assignStep_folders rt fid? keys st
  have hn : (assignItemsToFolder st rt keys fid?).state.nextId = st.nextId :=
    foldl_assignStep_nextId rt fid? keys st
  intro rt2
  rw [hf, hn]
  exact h rt2

/-- Every reachable state satisfies the invariant. -/
theorem reachable_folderInv {st : FolderState} (h : Reachable st) : FolderInv st := by
  induction h with
  | init => exact folderInv_initial
  | create rt name parentId _ hp ih => exact folderInv_create ih rt name parentId hp
  | rename rt fid newName _ ih => exact folderInv_rename ih rt fid newName
  | delete rt fid _ ih => exact folderInv_delete ih rt fid
  | assign rt key fid? _ ih => exact folderInv_assign ih rt key fid?
  | assignBatch rt keys fid? _ ih => exact folderInv_assignBatch ih rt keys fid?

/-! ## Acyclicity of the parent graph -/

/-- `g` is the parent folder of `f` among the folders of kind `rt`:
both are present and `f.parentId` points at `g`'s id. -/
def IsParentOf (st : FolderState) (rt : ResourceType) (f g : VirtualFolder) : Prop :=
  f ∈ st.folders rt ∧ g ∈ st.folders rt ∧ f.parentId = some g.id

theorem isParentOf_id_lt {st : FolderState} {rt : ResourceType}
    {f g : VirtualFolder} (hinv : FolderInv st) (h : IsParentOf st rt f g) :
    g.id < f.id :=
  ((hinv rt).1 f h.1).2 g.id h.2.2

theorem transGen_isParentOf_id_lt {st : FolderState} {rt : ResourceType}
    {f g : VirtualFolder} (hinv : FolderInv st)
    (h : Relation.TransGen (IsParentOf st rt) f g) : g.id < f.id := by
  induction h with
  | single hstep => exact isParentOf_id_lt hinv hstep
  | tail _ hstep ih => exact (isParentOf_id_lt hinv hstep).trans ih

/-! ## Stabilization of the fuelled recursive count -/

/-- Number of folders of the kind whose id is strictly above `fid`: the
termination measure of `countItemsRecursive` in a forest state. -/
def idsAbove (st : FolderState) (rt : ResourceType) (fid : FolderId) : Nat :=
  ((st.folders rt).filter (fun f => fid < f.id)).length

theorem mem_getChildFolders {st : FolderState} {rt : ResourceType}
    {pid : Option FolderId} {c : VirtualFolder}
    (hc : c ∈ getChildFolders st rt pid) :
    c ∈ st.folders rt ∧ c.parentId = pid := by
  rw [getChildFolders] at hc
  have h := List.mem_filter.mp hc
  exact ⟨h.1, eq_of_beq h.2⟩

theorem child_id_gt {st : FolderState} {rt : ResourceType} {fid : FolderId}
    {c : VirtualFolder} (hinv : FolderInv st)
    (hc : c ∈ getChildFolders st rt (some fid)) : fid < c.id :=
  ((hinv rt).1 c (mem_getChildFolders hc).1).2 fid (mem_getChildFolders hc).2

theorem idsAbove_lt_length {st : FolderState} {rt : ResourceType}
    {c : VirtualFolder} (hc : c ∈ st.folders rt) :
    idsAbove st rt c.id < (st.folders rt).length := by
  rw [idsAbove]
  refine Nat.lt_of_le_of_ne ((List.filter_sublist _).length_le) ?_
  intro heq
  have hall : (st.folders rt).filter (fun f => decide (c.id < f.id)) = st.folders rt :=
    (List.filter_sublist _).eq_of_length heq
  have hmem : c ∈ (st.folders rt).filter (fun f => decide (c.id < f.id)) := by
    rw [hall]; exact hc
  have := (List.mem_filter.mp hmem).2
  simp at this

theorem child_idsAbove_lt {st : FolderState} {rt : ResourceType} {fid : FolderId}
    {c : VirtualFolder} (hinv : FolderInv st)
    (hc : c ∈ getChildFolders st rt (some fid)) :
    idsAbove st rt c.id < idsAbove st rt fid := by
  have hmem := (mem_getChildFolders hc).1
  have hgt := child_id_gt hinv hc
  have hsub :
      ((st.folders rt).filter (fun f => decide (c.id < f.id))).Sublist
        ((st.folders rt).filter (fun f => decide (fid < f.id))) := by
    refine List.monotone_filter_right _ ?_
    intro a ha
    simp only [decide_eq_true_eq] at ha ⊢
    exact hgt.trans ha
  rw [idsAbove, idsAbove]
  refine Nat.lt_of_le_of_ne (hsub.length_le) ?_
  intro heq
  have hall := hsub.eq_of_length heq
  have hcr : c ∈ (st.folders rt).filter (fun f => decide (fid < f.id)) :=
    List.mem_filter.mpr ⟨hmem, by simp [hgt]⟩
  rw [← hall] at hcr
  have := (List.mem_filter.mp hcr).2
  simp at this

theorem countFuel_stable {st : FolderState} {rt : ResourceType}
    (hinv : FolderInv st) :
    ∀ k fid, idsAbove st rt fid = k → ∀ fuel1 fuel2, k < fuel1 → k < fuel2 →
      countItemsRecursiveFuel st rt fuel1 fid = countItemsRecursiveFuel st rt fuel2 fid := by
  intro k
  induction k using Nat.strong_induction_on with
  | _ k ih =>
      intro fid hk fuel1 fuel2 h1 h2
      match fuel1, fuel2 with
      | f1 + 1, f2 + 1 =>
        rw [countItemsRecursiveFuel, countItemsRecursiveFuel]
        congr 1
        refine congrArg List.sum (List.map_congr_left ?_)
        intro c hc
        have hchild : idsAbove st rt c.id < k := by
          rw [← hk]
          exact child_idsAbove_lt hinv hc
        exact ih (idsAbove st rt c.id) hchild c.id rfl f1 f2 (by omega) (by omega)

/-- With any fuel beyond the number of folders of the kind, the fuelled count
computes `countItemsRecursive`: the recursion of the source needs only
finitely many levels in a forest state. -/
theorem countFuel_eq_countItemsRecursive {st : FolderState} {rt : ResourceType}
    (hinv : FolderInv st) (fid : FolderId) (fuel : Nat)
    (hfuel : (st.folders rt).length < fuel) :
    countItemsRecursiveFuel st rt fuel fid = countItemsRecursive st rt fid := by
  have hle : idsAbove st rt fid ≤ (st.folders rt).length :=
    (List.filter_sublist _).length_le
  exact countFuel_stable hinv (idsAbove st rt fid) fid rfl fuel
    ((st.folders rt).length + 1) (by omega) (by omega)

/-! ## Concrete example states used by the witnesses -/

theorem fresh_parent_none {n : Nat} : ∀ p, (none : Option FolderId) = some p → p < n :=
  fun _ hp => nomatch hp

theorem fresh_parent_some {q n : Nat} (h : q < n) :
    ∀ p, (some q : Option FolderId) = some p → p < n := by
  intro p hp
  cases hp
  exact h

/-- One root folder "Testing" (id 0) of kind skill. -/
def exState1 : FolderState :=
  (createFolder initialState ResourceType.skill "Testing" none).state

/-- Additionally a sub-folder "Unit" (id 1) under folder 0. -/
def exState2 : FolderState :=
  (createFolder exState1 ResourceType.skill "Unit" (some 0)).state

/-- Additionally the item "a.md" assigned to folder 1. -/
def exState3 : FolderState :=
  (assignItemToFolder exState2 ResourceType.skill "a.md" (some 1)).state

theorem exState1_reachable : Reachable exState1 :=
  Reachable.create ResourceType.skill "Testing" none Reachable.init fresh_parent_none

theorem exState2_reachable : Reachable exState2 :=
  Reachable.create ResourceType.skill "Unit" (some 0) exState1_reachable
    (fresh_parent_some (by decide))

theorem exState3_reachable : Reachable exState3 :=
  Reachable.assign ResourceType.skill "a.md" (some 1) exState2_reachable

example : countItemsRecursive exState3 ResourceType.skill 0 = 1 := by decide

example : countItemsRecursive exState3 ResourceType.skill 1 = 1 := by decide

/-! ## Tree composition layer (`agentsProvider.ts`)

String helpers: `toLowerCase` is modelled character-wise, `includes` as
substring containment, and the `localeCompare` sort comparator as
code-point lexicographic order (the verified inclusion properties are
independent of the sort order). -/

/-- JS `String.prototype.toLowerCase`. -/
def strToLower (s : String) : String := ⟨s.data.map Char.toLower⟩

/-- JS `String.prototype.includes`: substring containment. -/
def strIncludes (s sub : String) : Bool := decide (List.IsInfix sub.data s.data)

/-- Code-point lexicographic order on character codes. -/
def lexLe : List Nat → List Nat → Bool
  | [], _ => true
  | _ :: _, [] => false
  | x :: xs, y :: ys => if x < y then true else if x = y then lexLe xs ys else false

/-- The sort comparator `(a, b) => a.name.localeCompare(b.name)`. -/
def strLe (a b : String) : Bool := lexLe (a.data.map Char.toNat) (b.data.map Char.toNat)

/-- A stable insertion sort by a string key, modelling `Array.prototype.sort`
with the name comparator. -/
def insertByName {α : Type} (name : α → String) (a : α) : List α → List α
  | [] => [a]
  | b :: rest =>
      if strLe (name a) (name b) then a :: b :: rest
      else b :: insertByName name a rest

/-- Sort a list by a string key. -/
def sortByName {α : Type} (name : α → String) : List α → List α
  | [] => []
  | a :: rest => insertByName name a (sortByName name rest)

theorem mem_insertByName {α : Type} (name : α → String) (a x : α) :
    ∀ l : List α, x ∈ insertByName name a l ↔ x = a ∨ x ∈ l := by
  intro l
  induction l with
  | nil => simp [insertByName]
  | cons b rest ih =>
      rw [insertByName]
      by_cases h : strLe (name a) (name b)
      · simp [h]
      · simp only [if_neg h, List.mem_cons, ih]
        tauto

theorem mem_sortByName {α : Type} (name : α → String) (x : α) :
    ∀ l : List α, x ∈ sortByName name l ↔ x ∈ l := by
  intro l
  induction l with
  | nil => simp [sortByName]
  | cons a rest ih =>
      rw [sortByName, mem_insertByName]
      simp [ih]

/-- The metadata of an agent tree item: display name, description and the
file path that serves as its stable assignment key. -/
structure AgentData where
  name : String
  resourceDescription : String
  filePath : ItemKey
deriving DecidableEq, Repr

/-- The state of `AgentsProvider`: the loaded agent items, the current
(lowercased) filter text, and the folder manager state it queries. -/
structure AgentsProvider where
  agents : List AgentData
  filterText : String
  folderManager : FolderState

/-- `setFilter(text)`: stores the lowercased filter text. -/
def setFilter (p : AgentsProvider) (text : String) : AgentsProvider :=
  { p with filterText := strToLower text }

/-- `clearFilter()`. -/
def clearFilter (p : AgentsProvider) : AgentsProvider :=
  { p with filterText := "" }

/-- The item filter predicate of `applyFilter` and of the root folder check:
name or description contains the filter text, case-insensitively. -/
def matchesFilter (ft : String) (a : AgentData) : Bool :=
  strIncludes (strToLower a.name) ft || strIncludes (strToLower a.resourceDescription) ft

/-- `applyFilter(items)`: identity when no filter is set. -/
def applyFilter (p : AgentsProvider) (items : List AgentData) : List AgentData :=
  if p.filterText = "" then items
  else items.filter (fun i => matchesFilter p.filterText i)

/-- A rendered tree node: either a `FolderItem` (carrying the folder, the
recursive item count shown as `(n)`, and the sub-folder count) or an agent. -/
inductive AgentTreeItem where
  | folderItem (folder : VirtualFolder) (totalCount : Nat) (subFolderCount : Nat)
  | agentItem (a : AgentData)
deriving DecidableEq, Repr

/-- `new FolderItem(folder, 'agent', countItemsRecursive(...), subFolderCount)`. -/
def mkFolderItem (fm : FolderState) (folder : VirtualFolder) : AgentTreeItem :=
  AgentTreeItem.folderItem folder
    (countItemsRecursive fm ResourceType.agent folder.id)
    (getChildFolders fm ResourceType.agent (some folder.id)).length

/-- The root-level filter check of `getChildren`: when a filter is active a
folder is kept when its name matches or one of the items directly assigned
to it matches. -/
def rootFolderKeep (p : AgentsProvider) (folder : VirtualFolder) : Bool :=
  if p.filterText = "" then true
  else
    strIncludes (strToLower folder.name) p.filterText ||
      (p.agents.filter (fun a =>
          getFolderForItem p.folderManager ResourceType.agent a.filePath ==
            some folder.id)).any
        (fun item => matchesFilter p.filterText item)

/-- The sub-folder filter check of `getChildren`: when a filter is active a
sub-folder is kept when its name matches or its (unfiltered) recursive item
count is nonzero. -/
def subFolderKeep (p : AgentsProvider) (subFolder : VirtualFolder) : Bool :=
  if p.filterText = "" then true
  else
    strIncludes (strToLower subFolder.name) p.filterText ||
      countItemsRecursive p.folderManager ResourceType.agent subFolder.id != 0

/-- `getChildren()` at the root: kept folders (sorted by name) first, then
the filtered unassigned agents (sorted by name). -/
def getChildrenRoot (p : AgentsProvider) : List AgentTreeItem :=
  let folders := getChildFolders p.folderManager ResourceType.agent none
  let sortedFolders := sortByName (fun f => f.name) folders
  let folderItems :=
    (sortedFolders.filter (rootFolderKeep p)).map (mkFolderItem p.folderManager)
  let unassignedAgents := p.agents.filter
    (fun a => (getFolderForItem p.folderManager ResourceType.agent a.filePath).isNone)
  let filteredUnassigned := applyFilter p unassignedAgents
  folderItems ++
    (sortByName (fun a => a.name) filteredUnassigned).map AgentTreeItem.agentItem

/-- `getChildren(element)` for a folder element: kept sub-folders (sorted by
name) first, then the filtered agents directly assigned to it (sorted). -/
def getChildrenOfFolder (p : AgentsProvider) (fid : FolderId) : List AgentTreeItem :=
  let subFolders := getChildFolders p.folderManager ResourceType.agent (some fid)
  let sortedSubFolders := sortByName (fun f => f.name) subFolders
  let folderItems :=
    (sortedSubFolders.filter (subFolderKeep p)).map (mkFolderItem p.folderManager)
  let folderAgents := p.agents.filter
    (fun a => getFolderForItem p.folderManager ResourceType.agent a.filePath == some fid)
  let filteredAgents := applyFilter p folderAgents
  folderItems ++
    (sortByName (fun a => a.name) filteredAgents).map AgentTreeItem.agentItem

/-- Modelled from the spec: the filtered-membership check the spec prescribes
for folder inclusion under a filter — the folder has at least one matching
item assigned to it or to any of its descendant folders (fuelled like the
count recursion). -/
def specHasMatchingDescendantItemFuel (p : AgentsProvider) :
    Nat → FolderId → Bool
  | 0, _ => false
  | fuel + 1, fid =>
      (p.agents.filter (fun a =>
          getFolderForItem p.folderManager ResourceType.agent a.filePath ==
            some fid)).any (fun item => matchesFilter p.filterText item) ||
        (getChildFolders p.folderManager ResourceType.agent (some fid)).any
          (fun c => specHasMatchingDescendantItemFuel p fuel c.id)

/-- Modelled from the spec: a matching item exists in the folder or in any
descendant folder. -/
def specHasMatchingDescendantItem (p : AgentsProvider) (fid : FolderId) : Bool :=
  specHasMatchingDescendantItemFuel p
    ((p.folderManager.folders ResourceType.agent).length + 1) fid

/-- A folder node for folder `f` occurs in a rendered list exactly when `f`
survived the keep-filter: the agent part of the list never contributes. -/
theorem folderItem_mem_render (fm : FolderState) (keep : VirtualFolder → Bool)
    (fs : List VirtualFolder) (ags : List AgentData) (f : VirtualFolder) :
    (∃ c s, AgentTreeItem.folderItem f c s ∈
        (fs.filter keep).map (mkFolderItem fm) ++ ags.map AgentTreeItem.agentItem) ↔
      f ∈ fs ∧ keep f = true := by
  constructor
  · rintro ⟨c, s, hmem⟩
    rcases List.mem_append.mp hmem with hmem | hmem
    · rcases List.mem_map.mp hmem with ⟨g, hg, heq⟩
      rw [mkFolderItem] at heq
      cases heq
      exact List.mem_filter.mp hg |>.imp id (fun h => h)
    · rcases List.mem_map.mp hmem with ⟨a, _, hEq⟩
      exact absurd hEq (by simp)
  · rintro ⟨hfs, hkeep⟩
    refine ⟨countItemsRecursive fm ResourceType.agent f.id,
      (getChildFolders fm ResourceType.agent (some f.id)).length, ?_⟩
    refine List.mem_append.mpr (Or.inl ?_)
    exact List.mem_map.mpr ⟨f, List.mem_filter.mpr ⟨hfs, hkeep⟩, rfl⟩

/-! ## Assignment-map lemmas -/

theorem lookupAssign_map_set (key : ItemKey) (v : FolderId) :
    ∀ l : List (ItemKey × FolderId), l.any (fun p => p.1 == key) = true →
      lookupAssign (l.map (fun p => if p.1 == key then (key, v) else p)) key = some v := by
  intro l
  induction l with
  | nil => intro h; simp at h
  | cons p rest ih =>
      obtain ⟨pk, pv⟩ := p
      intro h
      by_cases hk : pk = key
      · have hb : (pk == key) = true := by simp [hk]
        rw [List.map_cons, if_pos hb, lookupAssign, if_pos rfl]
      · have hb : (pk == key) = false := by simp [hk]
        rw [List.map_cons, if_neg (by simp [hb]), lookupAssign, if_neg hk]
        apply ih
        rw [List.any_cons] at h
        simp only [hb, Bool.false_or] at h
        exact h

theorem lookupAssign_append_fresh (key : ItemKey) (v : FolderId) :
    ∀ l : List (ItemKey × FolderId), l.any (fun p => p.1 == key) = false →
      lookupAssign (l ++ [(key, v)]) key = some v := by
  intro l
  induction l with
  | nil => intro _; rw [List.nil_append, lookupAssign, if_pos rfl]
  | cons p rest ih =>
      obtain ⟨pk, pv⟩ := p
      intro h
      rw [List.any_cons, Bool.or_eq_false_iff] at h
      have hk : ¬ pk = key := ne_of_beq_false h.1
      rw [List.cons_append, lookupAssign, if_neg hk]
      exact ih h.2

/-- Writing a key makes it map to the written value. -/
theorem lookupAssign_setAssign_self (l : List (ItemKey × FolderId)) (key : ItemKey)
    (v : FolderId) : lookupAssign (setAssign l key v) key = some v := by
  rw [setAssign]
  by_cases h : l.any (fun p => p.1 == key)
  · rw [if_pos h]
    exact lookupAssign_map_set key v l h
  · rw [if_neg h]
    refine lookupAssign_append_fresh key v l ?_
    rw [Bool.eq_false_iff]
    exact h

theorem lookupAssign_map_set_other {key key2 : ItemKey} (v : FolderId)
    (h : key2 ≠ key) :
    ∀ l : List (ItemKey × FolderId),
      lookupAssign (l.map (fun p => if p.1 == key then (key, v) else p)) key2 =
        lookupAssign l key2 := by
  intro l
  induction l with
  | nil => rfl
  | cons p rest ih =>
      obtain ⟨pk, pv⟩ := p
      rw [List.map_cons]
      by_cases hk : pk = key
      · have hb : (pk == key) = true := by simp [hk]
        rw [if_pos hb, lookupAssign, lookupAssign,
          if_neg (fun hx : key = key2 => h hx.symm),
          if_neg (fun hx : pk = key2 => h (hk ▸ hx).symm)]
        exact ih
      · have hb : (pk == key) = false := by simp [hk]
        rw [if_neg (by simp [hb]), lookupAssign, lookupAssign]
        by_cases h2 : pk = key2
        · rw [if_pos h2, if_pos h2]
        · rw [if_neg h2, if_neg h2]
          exact ih

theorem lookupAssign_append_other {key key2 : ItemKey} (v : FolderId)
    (h : key2 ≠ key) :
    ∀ l : List (ItemKey × FolderId),
      lookupAssign (l ++ [(key, v)]) key2 = lookupAssign l key2 := by
  intro l
  induction l with
  | nil =>
      rw [List.nil_append]
      show (if key = key2 then some v else lookupAssign [] key2) = lookupAssign [] key2
      rw [if_neg (fun hx : key = key2 => h hx.symm)]
  | cons p rest ih =>
      obtain ⟨pk, pv⟩ := p
      rw [List.cons_append, lookupAssign, lookupAssign]
      by_cases h2 : pk = key2
      · rw [if_pos h2, if_pos h2]
      · rw [if_neg h2, if_neg h2]
        exact ih

/-- Writing a key leaves every other key's lookup unchanged. -/
theorem lookupAssign_setAssign_other (l : List (ItemKey × FolderId))
    {key key2 : ItemKey} (v : FolderId) (h : key2 ≠ key) :
    lookupAssign (setAssign l key v) key2 = lookupAssign l key2 := by
  rw [setAssign]
  by_cases hc : l.any (fun p => p.1 == key)
  · rw [if_pos hc]
    exact lookupAssign_map_set_other v h l
  · rw [if_neg hc]
    exact lookupAssign_append_other v h l

theorem foldl_assignStep_assignments_self (rt : ResourceType) (fid : FolderId)
    (keys : List ItemKey) :
    ∀ s : FolderState, (keys.foldl (assignStep rt (some fid)) s).assignments rt =
      keys.foldl (fun a key => setAssign a key fid) (s.assignments rt) := by
  induction keys with
  | nil => intro s; rfl
  | cons k ks ih =>
      intro s
      rw [List.foldl_cons, List.foldl_cons, ih]
      congr 1
      exact updAssignments_assignments_self s rt (fun a => setAssign a k fid)

theorem lookupAssign_foldl_setAssign (fid : FolderId) :
    ∀ (keys : List ItemKey) (a : List (ItemKey × FolderId)) (key : ItemKey),
      key ∈ keys ∨ lookupAssign a key = some fid →
      lookupAssign (keys.foldl (fun a k => setAssign a k fid) a) key = some fid := by
  intro keys
  induction keys with
  | nil =>
      intro a key h
      rcases h with h | h
      · simp at h
      · exact h
  | cons k ks ih =>
      intro a key h
      rw [List.foldl_cons]
      apply ih
      rcases h with h | h
      · rcases List.mem_cons.mp h with h | h
        · subst h
          exact Or.inr (lookupAssign_setAssign_self a key fid)
        · exact Or.inl h
      · by_cases hk : key = k
        · subst hk
          exact Or.inr (lookupAssign_setAssign_self a key fid)
        · exact Or.inr ((lookupAssign_setAssign_other a fid hk).trans h)

/-! ## Shape lemmas for create / rename / delete used by the claims -/

theorem createFolder_folders (st : FolderState) (rt : ResourceType) (name : String)
    (pid : Option FolderId) (rt2 : ResourceType) :
    (createFolder st rt name pid).state.folders rt2 =
      if rt2 = rt then st.folders rt2 ++ [⟨st.nextId, name, pid, rt⟩]
      else st.folders rt2 := by
  simp only [createFolder, updFolders]

theorem createFolder_assignments (st : FolderState) (rt : ResourceType)
    (name : String) (pid : Option FolderId) :
    (createFolder st rt name pid).state.assignments = st.assignments := rfl

theorem renameFolder_assignments (st : FolderState) (rt : ResourceType)
    (fid : FolderId) (n : String) :
    (renameFolder st rt fid n).state.assignments = st.assignments := by
  rw [renameFolder]
  by_cases hc : (st.folders rt).any (fun f => f.id == fid)
  · rw [if_pos hc]
    rfl
  · rw [if_neg hc]

theorem renameFolder_folders_ne (st : FolderState) {rt rt2 : ResourceType}
    (fid : FolderId) (n : String) (h : rt2 ≠ rt) :
    (renameFolder st rt fid n).state.folders rt2 = st.folders rt2 := by
  rw [renameFolder]
  by_cases hc : (st.folders rt).any (fun f => f.id == fid)
  · rw [if_pos hc]
    exact updFolders_folders_ne _ _ h
  · rw [if_neg hc]

theorem deleteFolder_folders_ne (st : FolderState) {rt rt2 : ResourceType}
    (fid : FolderId) (h : rt2 ≠ rt) :
    (deleteFolder st rt fid).state.folders rt2 = st.folders rt2 := by
  show (updFolders _ rt _).folders rt2 = _
  rw [updFolders_folders_ne _ _ h]
  show (updAssignments _ rt _).folders rt2 = _
  rw [updAssignments_folders]
  exact foldl_deleteChildStep_folders_ne rt _ h st

theorem deleteFolder_assignments_ne (st : FolderState) {rt rt2 : ResourceType}
    (fid : FolderId) (h : rt2 ≠ rt) :
    (deleteFolder st rt fid).state.assignments rt2 = st.assignments rt2 := by
  show (updFolders _ rt _).assignments rt2 = _
  rw [updFolders_assignments]
  show (updAssignments _ rt _).assignments rt2 = _
  rw [updAssignments_assignments_ne _ _ h]
  exact foldl_deleteChildStep_assignments_ne rt _ h st

theorem assignStep_assignments_ne {rt rt2 : ResourceType} (fid? : Option FolderId)
    (s : FolderState) (key : ItemKey) (h : rt2 ≠ rt) :
    (assignStep rt fid? s key).assignments rt2 = s.assignments rt2 := by
  cases fid? with
  | none =>
      show (updAssignments s rt (fun a => a.filter (fun p => p.1 != key))).assignments rt2 =
        s.assignments rt2
      exact updAssignments_assignments_ne s _ h
  | some fid =>
      show (updAssignments s rt (fun a => setAssign a key fid)).assignments rt2 =
        s.assignments rt2
      exact updAssignments_assignments_ne s _ h

theorem foldl_assignStep_assignments_ne {rt rt2 : ResourceType}
    (fid? : Option FolderId) (keys : List ItemKey) (h : rt2 ≠ rt) :
    ∀ s : FolderState,
      (keys.foldl (assignStep rt fid?) s).assignments rt2 = s.assignments rt2 := by
  induction keys with
  | nil => intro s; rfl
  | cons k ks ih =>
      intro s
      rw [List.foldl_cons, ih, assignStep_assignments_ne _ _ _ h]

/-- With pairwise-distinct ids, the first-match in-place rename equals the
pointwise map that renames exactly the folder with the matching id. -/
theorem renameInList_eq_map (fid : FolderId) (n : String) :
    ∀ l : List VirtualFolder, (l.map (fun f => f.id)).Nodup →
      renameInList fid n l =
        l.map (fun f => if f.id = fid then { f with name := n } else f) := by
  intro l
  induction l with
  | nil => intro _; rfl
  | cons f rest ih =>
      intro hnd
      rw [List.map_cons, List.nodup_cons] at hnd
      rw [renameInList, List.map_cons]
      by_cases h : f.id = fid
      · rw [if_pos h, if_pos h]
        have hrest : ∀ g ∈ rest,
            (if g.id = fid then { g with name := n } else g) = id g := by
          intro g hg
          show (if g.id = fid then { g with name := n } else g) = g
          rw [if_neg]
          intro hgid
          exact hnd.1 (List.mem_map.mpr ⟨g, hg, by rw [hgid, h]⟩)
        have hmap := List.map_congr_left hrest
        rw [List.map_id] at hmap
        rw [hmap]
      · rw [if_neg h, if_neg h, ih hnd.2]

/-! ## Behaviour of `deleteFolder` on an unreferenced id -/

theorem getChildFolders_eq_nil {st : FolderState} {rt : ResourceType}
    {fid : FolderId} (hpar : ∀ f ∈ st.folders rt, f.parentId ≠ some fid) :
    getChildFolders st rt (some fid) = [] := by
  rw [getChildFolders, List.filter_eq_nil_iff]
  intro f hf hb
  exact hpar f hf (eq_of_beq hb)

theorem deleteFolder_folders_self_unref {st : FolderState} {rt : ResourceType}
    {fid : FolderId}
    (hid : ∀ f ∈ st.folders rt, f.id ≠ fid)
    (hpar : ∀ f ∈ st.folders rt, f.parentId ≠ some fid) :
    (deleteFolder st rt fid).state.folders rt = st.folders rt := by
  show (updFolders _ rt _).folders rt = _
  rw [updFolders_folders_self]
  show ((updAssignments _ rt _).folders rt).filter _ = _
  rw [updAssignments_folders, getChildFolders_eq_nil hpar, List.foldl_nil]
  refine List.filter_eq_self.mpr ?_
  intro f hf
  simpa using hid f hf

theorem deleteFolder_assignments_self_unref {st : FolderState} {rt : ResourceType}
    {fid : FolderId}
    (hpar : ∀ f ∈ st.folders rt, f.parentId ≠ some fid)
    (hasg : ∀ p ∈ st.assignments rt, p.2 ≠ fid) :
    (deleteFolder st rt fid).state.assignments rt = st.assignments rt := by
  show (updFolders _ rt _).assignments rt = _
  rw [updFolders_assignments]
  show (updAssignments _ rt _).assignments rt = _
  rw [updAssignments_assignments_self, getChildFolders_eq_nil hpar, List.foldl_nil]
  refine List.filter_eq_self.mpr ?_
  intro p hp
  simpa using hasg p hp

/-! ## Unfolded forms of the provider rendering -/

theorem getChildrenRoot_eq (p : AgentsProvider) :
    getChildrenRoot p =
      ((sortByName (fun f => f.name)
          (getChildFolders p.folderManager ResourceType.agent none)).filter
            (rootFolderKeep p)).map (mkFolderItem p.folderManager) ++
        (sortByName (fun a => a.name)
          (applyFilter p (p.agents.filter (fun a =>
            (getFolderForItem p.folderManager ResourceType.agent
              a.filePath).isNone)))).map AgentTreeItem.agentItem := rfl

theorem getChildrenOfFolder_eq (p : AgentsProvider) (fid : FolderId) :
    getChildrenOfFolder p fid =
      ((sortByName (fun f => f.name)
          (getChildFolders p.folderManager ResourceType.agent (some fid))).filter
            (subFolderKeep p)).map (mkFolderItem p.folderManager) ++
        (sortByName (fun a => a.name)
          (applyFilter p (p.agents.filter (fun a =>
            getFolderForItem p.folderManager ResourceType.agent a.filePath ==
              some fid)))).map AgentTreeItem.agentItem := rfl

/-! ## Further concrete states used by the claims -/

/-- Skill folders A(0) ← B(1) ← C(2) with item "c.md" assigned to C. -/
def exA : FolderState := (createFolder initialState ResourceType.skill "A" none).state

def exAB : FolderState := (createFolder exA ResourceType.skill "B" (some 0)).state

def exABC : FolderState := (createFolder exAB ResourceType.skill "C" (some 1)).state

def exABCitem : FolderState :=
  (assignItemToFolder exABC ResourceType.skill "c.md" (some 2)).state

theorem exA_reachable : Reachable exA :=
  Reachable.create ResourceType.skill "A" none Reachable.init fresh_parent_none

theorem exAB_reachable : Reachable exAB :=
  Reachable.create ResourceType.skill "B" (some 0) exA_reachable
    (fresh_parent_some (by decide))

theorem exABC_reachable : Reachable exABC :=
  Reachable.create ResourceType.skill "C" (some 1) exAB_reachable
    (fresh_parent_some (by decide))

theorem exABCitem_reachable : Reachable exABCitem :=
  Reachable.assign ResourceType.skill "c.md" (some 2) exABC_reachable

/-- A state with a dangling parent pointer, reached by creating folder A
(id 0), deleting it, and creating folder B with the now-dangling parent id 0 —
a construction the spec explicitly sanctions for `createFolder`. -/
def exDangling : FolderState :=
  (createFolder (deleteFolder exA ResourceType.skill 0).state
    ResourceType.skill "B" (some 0)).state

theorem exDangling_reachable : Reachable exDangling :=
  Reachable.create ResourceType.skill "B" (some 0)
    (Reachable.delete ResourceType.skill 0 exA_reachable)
    (fresh_parent_some (by decide))

/-- Folder state of kind agent: Alpha(0) at root, Beta(1) under Alpha, and
the item "p.md" assigned to Beta. -/
def cexFm : FolderState :=
  (assignItemToFolder
    (createFolder (createFolder initialState ResourceType.agent "Alpha" none).state
      ResourceType.agent "Beta" (some 0)).state
    ResourceType.agent "p.md" (some 1)).state

/-- Provider with an agent named "zzz helper" (file "p.md", inside Beta) and
an active filter "zzz": the spec demands that Alpha appear at the root
because a descendant item matches. -/
def cexProviderRoot : AgentsProvider :=
  { agents := [⟨"zzz helper", "", "p.md"⟩]
    filterText := "zzz"
    folderManager := cexFm }

/-- Provider with the agent named "other" (file "p.md", inside Beta) and an
active filter "zzz": no item matches, so the spec demands that Beta not
appear when Alpha is expanded. -/
def cexProviderSub : AgentsProvider :=
  { agents := [⟨"other", "", "p.md"⟩]
    filterText := "zzz"
    folderManager := cexFm }

example : getChildrenRoot cexProviderRoot = [] := by decide

example : getChildrenOfFolder cexProviderSub 0 =
    [AgentTreeItem.folderItem ⟨1, "Beta", some 0, ResourceType.agent⟩ 1 0] := by decide

example : getFolders initialState ResourceType.skill = [] := rfl

example :
    getFolders (createFolder initialState ResourceType.skill "Testing" none).state
        ResourceType.skill =
      [⟨0, "Testing", none, ResourceType.skill⟩] := rfl

example :
    getFolderForItem
        (assignItemToFolder initialState ResourceType.skill "a.md" (some 7)).state
        ResourceType.skill "a.md" = some 7 := rfl

/-! ## The claims -/

/-- C1: evaluation of `deleteFolder` at the failing input.  In the reachable
state with skill folders A(id 0) ← B(id 1) ← C(id 2) and item "c.md"
assigned to C, `deleteFolder(skill, 0)` leaves the grandchild folder C in
`getFolders` and leaves its assignment in place — contradicting the claim
(and the source's own "Recursively delete child folders first" comment) that
every descendant is removed and every assignment to a descendant cleared.
The loop in the source only ever removes the direct children. -/
theorem deleteFolder_leaves_grandchild :
    Reachable exABCitem ∧
    getFolders (deleteFolder exABCitem ResourceType.skill 0).state ResourceType.skill =
      [⟨2, "C", some 1, ResourceType.skill⟩] ∧
    getFolderForItem (deleteFolder exABCitem ResourceType.skill 0).state
      ResourceType.skill "c.md" = some 2 :=
  ⟨exABCitem_reachable, by decide, by decide⟩

/-- C2 (counterexample): with filter "zzz" active, folder Alpha has a matching
item in its descendant folder Beta, yet the rendered root children are empty
(the root check only looks at directly assigned items); and with no matching
item anywhere, folder Beta is still rendered when Alpha is expanded (the
sub-folder check uses the unfiltered recursive count).  Both directions of
the claimed inclusion criterion fail. -/
theorem filter_inclusion_counterexample :
    cexProviderRoot.filterText ≠ "" ∧
    (⟨0, "Alpha", none, ResourceType.agent⟩ : VirtualFolder) ∈
      getChildFolders cexProviderRoot.folderManager ResourceType.agent none ∧
    specHasMatchingDescendantItem cexProviderRoot 0 = true ∧
    getChildrenRoot cexProviderRoot = [] ∧
    cexProviderSub.filterText ≠ "" ∧
    strIncludes (strToLower "Beta") cexProviderSub.filterText = false ∧
    specHasMatchingDescendantItem cexProviderSub 1 = false ∧
    getChildrenOfFolder cexProviderSub 0 =
      [AgentTreeItem.folderItem ⟨1, "Beta", some 0, ResourceType.agent⟩ 1 0] := by
  decide

/-- C2 (amended): with a filter active, a folder node appears among the root
children exactly when the folder is a root folder and its name matches or
some item directly assigned to it matches; and a folder node appears among
the children of an expanded folder exactly when it is a child of that folder
and its name matches or its unfiltered recursive item count is nonzero. -/
theorem filter_folder_inclusion (p : AgentsProvider) (hft : p.filterText ≠ "")
    (f g : VirtualFolder) (fid : FolderId) :
    ((∃ c s, AgentTreeItem.folderItem f c s ∈ getChildrenRoot p) ↔
      f ∈ getChildFolders p.folderManager ResourceType.agent none ∧
        (strIncludes (strToLower f.name) p.filterText = true ∨
          ((p.agents.filter (fun a =>
              getFolderForItem p.folderManager ResourceType.agent a.filePath ==
                some f.id)).any (fun item => matchesFilter p.filterText item)) = true)) ∧
    ((∃ c s, AgentTreeItem.folderItem g c s ∈ getChildrenOfFolder p fid) ↔
      g ∈ getChildFolders p.folderManager ResourceType.agent (some fid) ∧
        (strIncludes (strToLower g.name) p.filterText = true ∨
          countItemsRecursive p.folderManager ResourceType.agent g.id ≠ 0)) := by
  constructor
  · rw [getChildrenRoot_eq, folderItem_mem_render, mem_sortByName]
    refine and_congr_right fun _ => ?_
    rw [rootFolderKeep, if_neg hft, Bool.or_eq_true]
  · rw [getChildrenOfFolder_eq, folderItem_mem_render, mem_sortByName]
    refine and_congr_right fun _ => ?_
    rw [subFolderKeep, if_neg hft, Bool.or_eq_true, bne_iff_ne]

/-- C2 (witness): the amended inclusion criterion applied to the concrete
provider with filter "zzz", folder Alpha at the root and folder Beta under
Alpha. -/
theorem filter_folder_inclusion_witness :
    cexProviderRoot.filterText ≠ "" ∧
    (((∃ c s, AgentTreeItem.folderItem ⟨0, "Alpha", none, ResourceType.agent⟩ c s ∈
        getChildrenRoot cexProviderRoot) ↔
      (⟨0, "Alpha", none, ResourceType.agent⟩ : VirtualFolder) ∈
          getChildFolders cexProviderRoot.folderManager ResourceType.agent none ∧
        (strIncludes (strToLower (VirtualFolder.name ⟨0, "Alpha", none, ResourceType.agent⟩))
            cexProviderRoot.filterText = true ∨
          ((cexProviderRoot.agents.filter (fun a =>
              getFolderForItem cexProviderRoot.folderManager ResourceType.agent a.filePath ==
                some (VirtualFolder.id ⟨0, "Alpha", none, ResourceType.agent⟩))).any
            (fun item => matchesFilter cexProviderRoot.filterText item)) = true)) ∧
    ((∃ c s, AgentTreeItem.folderItem ⟨1, "Beta", some 0, ResourceType.agent⟩ c s ∈
        getChildrenOfFolder cexProviderRoot 0) ↔
      (⟨1, "Beta", some 0, ResourceType.agent⟩ : VirtualFolder) ∈
          getChildFolders cexProviderRoot.folderManager ResourceType.agent (some 0) ∧
        (strIncludes (strToLower (VirtualFolder.name ⟨1, "Beta", some 0, ResourceType.agent⟩))
            cexProviderRoot.filterText = true ∨
          countItemsRecursive cexProviderRoot.folderManager ResourceType.agent
            (VirtualFolder.id ⟨1, "Beta", some 0, ResourceType.agent⟩) ≠ 0))) :=
  ⟨by decide,
    filter_folder_inclusion cexProviderRoot (by decide)
      ⟨0, "Alpha", none, ResourceType.agent⟩ ⟨1, "Beta", some 0, ResourceType.agent⟩ 0⟩

/-- C3 (counterexample): renaming a folder id that is not present fires no
change notification at all — in particular not the single notification for
the kind that the claim asserts. -/
theorem renameFolder_missing_fires_nothing :
    ((initialState.folders ResourceType.skill).any (fun f => f.id == 5) = false) ∧
    (renameFolder initialState ResourceType.skill 5 "x").fired = [] ∧
    (renameFolder initialState ResourceType.skill 5 "x").fired ≠ [ResourceType.skill] := by
  decide

/-- C3 (amended): renaming a folder id that is not present among the kind's
folders is a complete no-op: the state is returned unchanged, nothing is
persisted and no change notification fires. -/
theorem renameFolder_missing_noop (st : FolderState) (rt : ResourceType)
    (fid : FolderId) (n : String)
    (h : (st.folders rt).any (fun f => f.id == fid) = false) :
    renameFolder st rt fid n = ⟨st, 0, []⟩ := by
  rw [renameFolder, if_neg]
  rw [h]
  exact Bool.false_ne_true

/-- C3 (witness): the no-op behaviour at the empty state and the absent
folder id 5. -/
theorem renameFolder_missing_noop_witness :
    ((initialState.folders ResourceType.skill).any (fun f => f.id == 5) = false) ∧
    renameFolder initialState ResourceType.skill 5 "x" = ⟨initialState, 0, []⟩ :=
  ⟨by decide, renameFolder_missing_noop initialState ResourceType.skill 5 "x" (by decide)⟩

/-- C4 (counterexample): in the reachable state `exDangling`, folder B has
the dangling parent id 0 and no folder with id 0 exists; `deleteFolder` on
the absent id 0 nevertheless deletes B, so the call is not a no-op. -/
theorem deleteFolder_missing_not_noop :
    Reachable exDangling ∧
    (getFolders exDangling ResourceType.skill).all (fun f => f.id != 0) = true ∧
    getFolders exDangling ResourceType.skill = [⟨1, "B", some 0, ResourceType.skill⟩] ∧
    getFolders (deleteFolder exDangling ResourceType.skill 0).state ResourceType.skill = [] :=
  ⟨exDangling_reachable, by decide, by decide, by decide⟩

/-- C4 (amended): `deleteFolder` on an id that is not present among the
kind's folders, is no folder's `parentId`, and is pointed at by no assignment
entry leaves every kind's folder list and every item's assignment unchanged. -/
theorem deleteFolder_unreferenced_noop (st : FolderState) (rt : ResourceType)
    (fid : FolderId)
    (hid : ∀ f ∈ st.folders rt, f.id ≠ fid)
    (hpar : ∀ f ∈ st.folders rt, f.parentId ≠ some fid)
    (hasg : ∀ p ∈ st.assignments rt, p.2 ≠ fid) :
    (∀ rt2, getFolders (deleteFolder st rt fid).state rt2 = getFolders st rt2) ∧
    (∀ rt2 key, getFolderForItem (deleteFolder st rt fid).state rt2 key =
      getFolderForItem st rt2 key) := by
  constructor
  · intro rt2
    simp only [getFolders]
    by_cases hr : rt2 = rt
    · subst hr
      exact deleteFolder_folders_self_unref hid hpar
    · exact deleteFolder_folders_ne st fid hr
  · intro rt2 key
    simp only [getFolderForItem]
    by_cases hr : rt2 = rt
    · subst hr
      rw [deleteFolder_assignments_self_unref hpar hasg]
    · rw [deleteFolder_assignments_ne st fid hr]

/-- C4 (witness): deleting the fully unreferenced id 99 in the concrete state
with the A ← B ← C chain changes nothing. -/
theorem deleteFolder_unreferenced_noop_witness :
    (∀ f ∈ exABCitem.folders ResourceType.skill, f.id ≠ 99) ∧
    (∀ f ∈ exABCitem.folders ResourceType.skill, f.parentId ≠ some 99) ∧
    (∀ p ∈ exABCitem.assignments ResourceType.skill, p.2 ≠ 99) ∧
    ((∀ rt2, getFolders (deleteFolder exABCitem ResourceType.skill 99).state rt2 =
        getFolders exABCitem rt2) ∧
      (∀ rt2 key, getFolderForItem (deleteFolder exABCitem ResourceType.skill 99).state rt2 key =
        getFolderForItem exABCitem rt2 key)) :=
  ⟨by decide, by decide, by decide,
    deleteFolder_unreferenced_noop exABCitem ResourceType.skill 99
      (by decide) (by decide) (by decide)⟩

/-- C5: in every reachable state, the recursive count of a folder equals its
direct item count plus the sum of the recursive counts of its child
folders. -/
theorem countItemsRecursive_consistent {st : FolderState} (h : Reachable st)
    (rt : ResourceType) (fid : FolderId) :
    countItemsRecursive st rt fid =
      (getItemsInFolder st rt fid).length +
        ((getChildFolders st rt (some fid)).map
          (fun c => countItemsRecursive st rt c.id)).sum := by
  have hinv := reachable_folderInv h
  rw [countItemsRecursive, countItemsRecursiveFuel]
  congr 1
  refine congrArg List.sum (List.map_congr_left ?_)
  intro c hc
  have hc1 : c ∈ st.folders rt := (mem_getChildFolders hc).1
  have hlt := idsAbove_lt_length hc1
  exact countFuel_stable hinv (idsAbove st rt c.id) c.id rfl
    ((st.folders rt).length) ((st.folders rt).length + 1) hlt (Nat.lt_succ_of_lt hlt)

/-- C5 (witness): the count equation at the reachable state with folder
"Testing"(0) ← "Unit"(1) and item "a.md" in folder 1. -/
theorem countItemsRecursive_consistent_witness :
    Reachable exState3 ∧
    countItemsRecursive exState3 ResourceType.skill 0 =
      (getItemsInFolder exState3 ResourceType.skill 0).length +
        ((getChildFolders exState3 ResourceType.skill (some 0)).map
          (fun c => countItemsRecursive exState3 ResourceType.skill c.id)).sum :=
  ⟨exState3_reachable,
    countItemsRecursive_consistent exState3_reachable ResourceType.skill 0⟩

/-- C6: a batch `assignItemsToFolder` to a defined folder makes every key of
the batch map to that folder, persists exactly once and fires exactly one
change notification, carrying the mutated kind. -/
theorem assignItemsToFolder_batch (st : FolderState) (rt : ResourceType)
    (keys : List ItemKey) (fid : FolderId)
    (hdef : (st.folders rt).any (fun f => f.id == fid) = true) :
    (∀ key ∈ keys,
      getFolderForItem (assignItemsToFolder st rt keys (some fid)).state rt key =
        some fid) ∧
    (assignItemsToFolder st rt keys (some fid)).persistCount = 1 ∧
    (assignItemsToFolder st rt keys (some fid)).fired = [rt] := by
  refine ⟨?_, rfl, rfl⟩
  intro key hk
  show lookupAssign ((keys.foldl (assignStep rt (some fid)) st).assignments rt) key =
    some fid
  rw [foldl_assignStep_assignments_self]
  exact lookupAssign_foldl_setAssign fid keys _ key (Or.inl hk)

/-- C6 (witness): moving the batch ["a.md", "b.md"] into the defined skill
folder 0 of the concrete one-folder state. -/
theorem assignItemsToFolder_batch_witness :
    ((exA.folders ResourceType.skill).any (fun f => f.id == 0) = true) ∧
    ((∀ key ∈ ["a.md", "b.md"],
      getFolderForItem
          (assignItemsToFolder exA ResourceType.skill ["a.md", "b.md"] (some 0)).state
          ResourceType.skill key = some 0) ∧
    (assignItemsToFolder exA ResourceType.skill ["a.md", "b.md"] (some 0)).persistCount = 1 ∧
    (assignItemsToFolder exA ResourceType.skill ["a.md", "b.md"] (some 0)).fired =
      [ResourceType.skill]) :=
  ⟨by decide,
    assignItemsToFolder_batch exA ResourceType.skill ["a.md", "b.md"] 0 (by decide)⟩

/-- C7: no cross-kind leakage — each of the five mutators invoked with kind A
leaves the folder list of any other kind B and every assignment under B
unchanged. -/
theorem ops_no_cross_kind (st : FolderState) {A B : ResourceType} (hAB : A ≠ B)
    (name : String) (pid : Option FolderId) (fidR fidD : FolderId) (n : String)
    (key : ItemKey) (keys : List ItemKey) (fid1? fid2? : Option FolderId) :
    (getFolders (createFolder st A name pid).state B = getFolders st B ∧
      ∀ k, getFolderForItem (createFolder st A name pid).state B k =
        getFolderForItem st B k) ∧
    (getFolders (renameFolder st A fidR n).state B = getFolders st B ∧
      ∀ k, getFolderForItem (renameFolder st A fidR n).state B k =
        getFolderForItem st B k) ∧
    (getFolders (deleteFolder st A fidD).state B = getFolders st B ∧
      ∀ k, getFolderForItem (deleteFolder st A fidD).state B k =
        getFolderForItem st B k) ∧
    (getFolders (assignItemToFolder st A key fid1?).state B = getFolders st B ∧
      ∀ k, getFolderForItem (assignItemToFolder st A key fid1?).state B k =
        getFolderForItem st B k) ∧
    (getFolders (assignItemsToFolder st A keys fid2?).state B = getFolders st B ∧
      ∀ k, getFolderForItem (assignItemsToFolder st A keys fid2?).state B k =
        getFolderForItem st B k) := by
  have hBA : B ≠ A := hAB.symm
  refine ⟨⟨?_, ?_⟩, ⟨?_, ?_⟩, ⟨?_, ?_⟩, ⟨?_, ?_⟩, ⟨?_, ?_⟩⟩
  · simp only [getFolders]
    rw [createFolder_folders, if_neg hBA]
  · intro k
    simp only [getFolderForItem]
    rw [createFolder_assignments]
  · simp only [getFolders]
    exact renameFolder_folders_ne st fidR n hBA
  · intro k
    simp only [getFolderForItem]
    rw [renameFolder_assignments]
  · simp only [getFolders]
    exact deleteFolder_folders_ne st fidD hBA
  · intro k
    simp only [getFolderForItem]
    rw [deleteFolder_assignments_ne st fidD hBA]
  · simp only [getFolders]
    show (assignStep A fid1? st key).folders B = st.folders B
    rw [assignStep_folders]
  · intro k
    simp only [getFolderForItem]
    show lookupAssign ((assignStep A fid1? st key).assignments B) k =
      lookupAssign (st.assignments B) k
    rw [assignStep_assignments_ne fid1? st key hBA]
  · simp only [getFolders]
    show (keys.foldl (assignStep A fid2?) st).folders B = st.folders B
    rw [foldl_assignStep_folders]
  · intro k
    simp only [getFolderForItem]
    show lookupAssign ((keys.foldl (assignStep A fid2?) st).assignments B) k =
      lookupAssign (st.assignments B) k
    rw [foldl_assignStep_assignments_ne fid2? keys hBA]

/-- C7 (witness): the five mutators with kind skill leave the agent kind's
folders and assignments of the concrete chain state unchanged. -/
theorem ops_no_cross_kind_witness :
    ResourceType.skill ≠ ResourceType.agent ∧
    ((getFolders (createFolder exABCitem ResourceType.skill "N" none).state
        ResourceType.agent = getFolders exABCitem ResourceType.agent ∧
      ∀ k, getFolderForItem (createFolder exABCitem ResourceType.skill "N" none).state
          ResourceType.agent k = getFolderForItem exABCitem ResourceType.agent k) ∧
    (getFolders (renameFolder exABCitem ResourceType.skill 0 "x").state
        ResourceType.agent = getFolders exABCitem ResourceType.agent ∧
      ∀ k, getFolderForItem (renameFolder exABCitem ResourceType.skill 0 "x").state
          ResourceType.agent k = getFolderForItem exABCitem ResourceType.agent k) ∧
    (getFolders (deleteFolder exABCitem ResourceType.skill 0).state
        ResourceType.agent = getFolders exABCitem ResourceType.agent ∧
      ∀ k, getFolderForItem (deleteFolder exABCitem ResourceType.skill 0).state
          ResourceType.agent k = getFolderForItem exABCitem ResourceType.agent k) ∧
    (getFolders (assignItemToFolder exABCitem ResourceType.skill "k.md" (some 0)).state
        ResourceType.agent = getFolders exABCitem ResourceType.agent ∧
      ∀ k, getFolderForItem
          (assignItemToFolder exABCitem ResourceType.skill "k.md" (some 0)).state
          ResourceType.agent k = getFolderForItem exABCitem ResourceType.agent k) ∧
    (getFolders (assignItemsToFolder exABCitem ResourceType.skill ["k.md"] none).state
        ResourceType.agent = getFolders exABCitem ResourceType.agent ∧
      ∀ k, getFolderForItem
          (assignItemsToFolder exABCitem ResourceType.skill ["k.md"] none).state
          ResourceType.agent k = getFolderForItem exABCitem ResourceType.agent k)) :=
  ⟨by decide,
    ops_no_cross_kind exABCitem (by decide) "N" none 0 0 "x" "k.md" ["k.md"]
      (some 0) none⟩

/-- C8: in every reachable state the parent graph of each kind is acyclic —
following parent pointers from any folder never returns to it. -/
theorem parent_graph_acyclic {st : FolderState} (h : Reachable st)
    (rt : ResourceType) (f : VirtualFolder) :
    ¬ Relation.TransGen (IsParentOf st rt) f f := by
  intro hcycle
  exact lt_irrefl f.id (transGen_isParentOf_id_lt (reachable_folderInv h) hcycle)

/-- C8 (witness): no parent cycle through the sub-folder "Unit"(1) of the
concrete two-folder state. -/
theorem parent_graph_acyclic_witness :
    Reachable exState2 ∧
    ¬ Relation.TransGen (IsParentOf exState2 ResourceType.skill)
      ⟨1, "Unit", some 0, ResourceType.skill⟩
      ⟨1, "Unit", some 0, ResourceType.skill⟩ :=
  ⟨exState2_reachable,
    parent_graph_acyclic exState2_reachable ResourceType.skill
      ⟨1, "Unit", some 0, ResourceType.skill⟩⟩

/-- C9: `countItemsRecursive` terminates on every reachable state — rendered
shallowly: once the fuel exceeds the number of folders of the kind (a bound
on the forest depth), adding more fuel never changes the result, i.e. the
recursion of the source bottoms out after finitely many levels. -/
theorem countItemsRecursive_terminates {st : FolderState} (h : Reachable st)
    (rt : ResourceType) (fid : FolderId) (fuel : Nat)
    (hfuel : (st.folders rt).length < fuel) :
    countItemsRecursiveFuel st rt fuel fid = countItemsRecursive st rt fid :=
  countFuel_eq_countItemsRecursive (reachable_folderInv h) fid fuel hfuel

/-- C9 (witness): in the concrete two-folder state, fuel 10 computes the same
count for folder 0 as the canonical fuel. -/
theorem countItemsRecursive_terminates_witness :
    Reachable exState3 ∧
    (exState3.folders ResourceType.skill).length < 10 ∧
    countItemsRecursiveFuel exState3 ResourceType.skill 10 0 =
      countItemsRecursive exState3 ResourceType.skill 0 :=
  ⟨exState3_reachable, by decide,
    countItemsRecursive_terminates exState3_reachable ResourceType.skill 0 10 (by decide)⟩

/-- C10: renaming a present folder id changes only the `name` field of the
folder with that id: every other field and every other folder of the kind is
unchanged (pointwise map), folders of all other kinds are unchanged, and
every assignment of every kind is unchanged. -/
theorem renameFolder_frame {st : FolderState} (h : Reachable st)
    (rt : ResourceType) (fid : FolderId) (n : String)
    (hfound : (st.folders rt).any (fun f => f.id == fid) = true) :
    getFolders (renameFolder st rt fid n).state rt =
      (st.folders rt).map (fun f => if f.id = fid then { f with name := n } else f) ∧
    (∀ rt2, rt2 ≠ rt →
      getFolders (renameFolder st rt fid n).state rt2 = getFolders st rt2) ∧
    (∀ rt2 key, getFolderForItem (renameFolder st rt fid n).state rt2 key =
      getFolderForItem st rt2 key) := by
  refine ⟨?_, ?_, ?_⟩
  · simp only [getFolders]
    rw [renameFolder, if_pos hfound, updFolders_folders_self]
    exact renameInList_eq_map fid n _ (reachable_folderInv h rt).2
  · intro rt2 hne
    simp only [getFolders]
    exact renameFolder_folders_ne st fid n hne
  · intro rt2 key
    simp only [getFolderForItem]
    rw [renameFolder_assignments]

/-- C10 (witness): renaming folder 0 of the concrete one-folder state. -/
theorem renameFolder_frame_witness :
    Reachable exState1 ∧
    ((exState1.folders ResourceType.skill).any (fun f => f.id == 0) = true) ∧
    (getFolders (renameFolder exState1 ResourceType.skill 0 "Renamed").state
        ResourceType.skill =
      (exState1.folders ResourceType.skill).map
        (fun f => if f.id = 0 then { f with name := "Renamed" } else f) ∧
    (∀ rt2, rt2 ≠ ResourceType.skill →
      getFolders (renameFolder exState1 ResourceType.skill 0 "Renamed").state rt2 =
        getFolders exState1 rt2) ∧
    (∀ rt2 key,
      getFolderForItem (renameFolder exState1 ResourceType.skill 0 "Renamed").state rt2 key =
        getFolderForItem exState1 rt2 key)) :=
  ⟨exState1_reachable, by decide,
    renameFolder_frame exState1_reachable ResourceType.skill 0 "Renamed" (by decide)⟩

end ClaudeCodeBrowser
